/-
Verification of the AMAC OpenAPI mapper and probing engine.

This file shallowly embeds the algorithmic core of the AMAC repository
(src/amac/discovery/openapi.py, src/amac/discovery/sampler.py,
src/amac/runner/client.py, src/amac/runner/probes.py) as executable Lean
definitions and proves, or refutes, the spec-level claims about them.

Python dict/list/scalar values are modelled by the inductive type `JValue`;
Python dicts are association lists looked up by first key occurrence;
Python numbers are modelled by `Rat` (exact rational arithmetic covers both
int and float values as they appear in the code paths under study).
Functions that recurse through `dict` structure in Python (the schema
sampler and the `$ref` dereferencer, which can diverge on adversarial
inputs) are embedded with an explicit fuel argument; `none` means the fuel
ran out, and divergence of the Python original corresponds to the embedded
function returning `none` for every fuel.
-/
import Mathlib

namespace AMAC

/-- Model of a parsed JSON/YAML value (Python object graph). -/
inductive JValue where
  | null : JValue
  | bool : Bool → JValue
  | num : Rat → JValue
  | str : String → JValue
  | arr : List JValue → JValue
  | obj : List (String × JValue) → JValue

/-- Python `node.get(k)` on a dict: first binding of the key, else `none`;
non-dict values yield `none` (the code always guards with isinstance). -/
def jGet (v : JValue) (k : String) : Option JValue :=
  match v with
  | .obj kvs => kvs.lookup k
  | _ => none

/-- Python `k in node` for a dict node. -/
def jHasKey (v : JValue) (k : String) : Bool :=
  (jGet v k).isSome

-- ---------------------------------------------------------------------
-- Security inheritance (openapi.py, _operation_requires_auth)
-- ---------------------------------------------------------------------

/-- Embedding of the inner `has_sec` of `_operation_requires_auth`:
non-dict nodes and nodes without a `security` key give `none`; an empty
list gives `some false`; a non-empty list gives `some true`; any other
value type under the key gives `none`. -/
def hasSec (node : JValue) : Option Bool :=
  match node with
  | .obj kvs =>
    match kvs.lookup "security" with
    | none => none
    | some sec =>
      match sec with
      | .arr [] => some false
      | .arr (_ :: _) => some true
      | _ => none
  | _ => none

/-- Embedding of `_operation_requires_auth`: first non-`none` result of
`has_sec` over operation, path item, document root. -/
def operationRequiresAuth (doc pathItem opObj : JValue) : Option Bool :=
  match hasSec opObj with
  | some v => some v
  | none =>
    match hasSec pathItem with
    | some v => some v
    | none => hasSec doc

/-- Spec-side rule of section 4.2, stated from the spec wording: the first
object (operation, path item, root) that declares a `security` key. -/
def firstSecurityDecl (nodes : List JValue) : Option JValue :=
  nodes.find? (fun n => jHasKey n "security")

/-- Spec-side rule: the declared security array is non-empty. -/
def securityNonEmpty (n : JValue) : Bool :=
  match jGet n "security" with
  | some (.arr (_ :: _)) => true
  | _ => false

/-- Spec-side rule of section 4.2 assembled: examine operation, path item,
root in order; the first that declares `security` decides (empty array
false, non-empty true); otherwise unknown (`none`). -/
def specRequiresAuth (doc pathItem opObj : JValue) : Option Bool :=
  match firstSecurityDecl [opObj, pathItem, doc] with
  | none => none
  | some n => some (securityNonEmpty n)

/-- Predicate: every value the node declares under `security` is an array
(the only well-formed shape in OpenAPI). -/
def SecurityIsArray (n : JValue) : Prop :=
  ∀ v, jGet n "security" = some v → ∃ xs, v = JValue.arr xs

lemma hasSec_of_securityIsArray (n : JValue) (h : SecurityIsArray n) :
    hasSec n = if jHasKey n "security" then some (securityNonEmpty n) else none := by
  cases n with
  | obj kvs =>
    simp only [hasSec, jHasKey, jGet, securityNonEmpty]
    cases hl : kvs.lookup "security" with
    | none => simp
    | some sec =>
      have := h sec (by simpa [jGet] using hl)
      obtain ⟨xs, rfl⟩ := this
      cases xs <;> simp
  | null => simp [hasSec, jHasKey, jGet]
  | bool b => simp [hasSec, jHasKey, jGet]
  | num q => simp [hasSec, jHasKey, jGet]
  | str s => simp [hasSec, jHasKey, jGet]
  | arr xs => simp [hasSec, jHasKey, jGet]

/-- C4: `requires_auth` is decided by the first of operation, path item,
document root that declares a `security` key (empty array false, non-empty
array true), and is unknown (`none`) when no object declares the key,
provided each declared `security` value is an array as OpenAPI requires. -/
theorem requiresAuth_first_security_decl (doc pathItem opObj : JValue)
    (hop : SecurityIsArray opObj) (hpath : SecurityIsArray pathItem)
    (hdoc : SecurityIsArray doc) :
    operationRequiresAuth doc pathItem opObj = specRequiresAuth doc pathItem opObj := by
  simp only [operationRequiresAuth, specRequiresAuth, firstSecurityDecl]
  rw [hasSec_of_securityIsArray _ hop, hasSec_of_securityIsArray _ hpath,
    hasSec_of_securityIsArray _ hdoc]
  by_cases h1 : jHasKey opObj "security" <;>
    by_cases h2 : jHasKey pathItem "security" <;>
      by_cases h3 : jHasKey doc "security" <;>
        simp [h1, h2, h3, List.find?]

/-- Operation object declaring `security: []`, used as concrete input. -/
def opNoSec : JValue := .obj [("security", .arr [])]

/-- Document root declaring a non-empty `security`, used as concrete input. -/
def rootWithSec : JValue := .obj [("security", .arr [.obj [("apiKey", .arr [])]])]

/-- Witness for C4: an operation with `security: []` yields `false` (not
unknown) even though the document root declares a non-empty `security`. -/
theorem requiresAuth_first_security_decl_witness :
    operationRequiresAuth rootWithSec (.obj []) opNoSec = specRequiresAuth rootWithSec (.obj []) opNoSec ∧
    operationRequiresAuth rootWithSec (.obj []) opNoSec = some false := by
  constructor
  · exact requiresAuth_first_security_decl rootWithSec (.obj []) opNoSec
      (by intro v h; simp [jGet, opNoSec, List.lookup] at h; exact ⟨[], h.symm⟩)
      (by intro v h; simp [jGet] at h)
      (by intro v h; simp [jGet, rootWithSec, List.lookup] at h; exact ⟨_, h.symm⟩)
  · rfl

-- ---------------------------------------------------------------------
-- Endpoint model and deduplication (openapi.py, load_and_map_openapi)
-- ---------------------------------------------------------------------

/-- Model of `models.Endpoint` (the fields set by the mapper). -/
structure Endpoint where
  method : String
  url : String
  requiresAuth : Option Bool
  template : Option String
  tags : List String
  operationId : Option String
  extra : List (String × JValue)

/-- Dedup key `(ep.method, ep.url)` used by `load_and_map_openapi`. -/
def epKey (e : Endpoint) : String × String := (e.method, e.url)

/-- Embedding of the dedup loop at the end of `load_and_map_openapi`:
walk the accumulated list, keep an endpoint only if its `(method, url)`
key has not been seen, and record the key. -/
def dedupEndpoints (seen : List (String × String)) : List Endpoint → List Endpoint
  | [] => []
  | e :: rest =>
    if epKey e ∈ seen then dedupEndpoints seen rest
    else e :: dedupEndpoints (epKey e :: seen) rest

/-- First endpoint of the list carrying the given `(method, url)` key. -/
def firstOcc (eps : List Endpoint) (k : String × String) : Option Endpoint :=
  eps.find? (fun x => decide (epKey x = k))

lemma dedupEndpoints_sublist (seen : List (String × String)) (eps : List Endpoint) :
    List.Sublist (dedupEndpoints seen eps) eps := by
  induction eps generalizing seen with
  | nil => simp [dedupEndpoints]
  | cons e rest ih =>
    simp only [dedupEndpoints]
    by_cases h : epKey e ∈ seen
    · simpa [h] using List.Sublist.cons e (ih seen)
    · simpa [h] using List.Sublist.cons₂ e (ih (epKey e :: seen))

lemma dedupEndpoints_keys (seen : List (String × String)) (eps : List Endpoint) :
    ((dedupEndpoints seen eps).map epKey).Nodup ∧
    ∀ k ∈ (dedupEndpoints seen eps).map epKey, k ∉ seen := by
  induction eps generalizing seen with
  | nil => simp [dedupEndpoints]
  | cons e rest ih =>
    simp only [dedupEndpoints]
    by_cases h : epKey e ∈ seen
    · simpa [h] using ih seen
    · obtain ⟨h1, h2⟩ := ih (epKey e :: seen)
      simp only [h, if_false, List.map_cons, List.nodup_cons]
      refine ⟨⟨fun hc => ?_, h1⟩, ?_⟩
      · exact (h2 _ hc) (List.mem_cons_self _ _)
      · intro k hk
        rcases List.mem_cons.mp hk with rfl | hk2
        · exact h
        · intro hks
          exact (h2 _ hk2) (List.mem_cons_of_mem _ hks)

lemma dedupEndpoints_first (seen : List (String × String)) (eps : List Endpoint) :
    ∀ e ∈ dedupEndpoints seen eps, firstOcc eps (epKey e) = some e := by
  induction eps generalizing seen with
  | nil => simp [dedupEndpoints]
  | cons x rest ih =>
    intro e he
    simp only [dedupEndpoints] at he
    by_cases h : epKey x ∈ seen
    · rw [if_pos h] at he
      have hne : epKey x ≠ epKey e := by
        intro hk
        exact ((dedupEndpoints_keys seen rest).2 (epKey e) (List.mem_map_of_mem epKey he)) (hk ▸ h)
      rw [firstOcc, List.find?_cons_of_neg _ (by simpa using hne)]
      exact ih seen e he
    · rw [if_neg h] at he
      rcases List.mem_cons.mp he with rfl | he2
      · rw [firstOcc, List.find?_cons_of_pos _ (by simp)]
      · have hne : epKey x ≠ epKey e := by
          intro hk
          exact ((dedupEndpoints_keys (epKey x :: seen) rest).2 (epKey e)
            (List.mem_map_of_mem epKey he2)) (hk ▸ List.mem_cons_self _ _)
        rw [firstOcc, List.find?_cons_of_neg _ (by simpa using hne)]
        exact ih (epKey x :: seen) e he2

lemma dedupEndpoints_covers (seen : List (String × String)) (eps : List Endpoint) :
    ∀ e ∈ eps, epKey e ∉ seen →
      ∃ e2 ∈ dedupEndpoints seen eps, epKey e2 = epKey e := by
  induction eps generalizing seen with
  | nil => simp
  | cons x rest ih =>
    intro e he hns
    simp only [dedupEndpoints]
    by_cases h : epKey x ∈ seen
    · rcases List.mem_cons.mp he with rfl | he2
      · exact absurd h hns
      · simpa [h] using ih seen e he2 hns
    · rw [if_neg h]
      rcases List.mem_cons.mp he with rfl | he2
      · exact ⟨e, List.mem_cons_self _ _, rfl⟩
      · by_cases hk : epKey e = epKey x
        · exact ⟨x, List.mem_cons_self _ _, hk.symm⟩
        · obtain ⟨e2, hmem, hkey⟩ := ih (epKey x :: seen) e he2 (by
            intro hc
            rcases List.mem_cons.mp hc with h1 | h2
            · exact hk h1
            · exact hns h2)
          exact ⟨e2, List.mem_cons_of_mem _ hmem, hkey⟩

/-- C8: the deduplicated endpoint list has pairwise distinct
`(method, url)` keys, is a subsequence of the accumulated discovery list
(so first-occurrence order is preserved), keeps exactly the first
occurrence of each key, covers every discovered key, and — the mapper
being a pure function of document and scope — mapping twice yields the
identical list. -/
theorem endpoint_dedup_unique_first_ordered (eps : List Endpoint) :
    ((dedupEndpoints [] eps).map epKey).Nodup ∧
    List.Sublist (dedupEndpoints [] eps) eps ∧
    (∀ e ∈ dedupEndpoints [] eps, firstOcc eps (epKey e) = some e) ∧
    (∀ e ∈ eps, ∃ e2 ∈ dedupEndpoints [] eps, epKey e2 = epKey e) ∧
    dedupEndpoints [] eps = dedupEndpoints [] eps :=
  ⟨(dedupEndpoints_keys [] eps).1, dedupEndpoints_sublist [] eps,
    dedupEndpoints_first [] eps,
    fun e he => dedupEndpoints_covers [] eps e he (by simp), rfl⟩

-- ---------------------------------------------------------------------
-- Local $ref resolution (openapi.py, _resolve_local_ref and _deref)
-- ---------------------------------------------------------------------

/-- Pointer walk of `_resolve_local_ref`: traverse the already split
segments key by key; any miss (or non-dict node) yields the literal
unresolved-reference sentinel. -/
def refWalk (ref : String) : List String → JValue → JValue
  | [], cur => cur
  | p :: ps, cur =>
    match jGet cur p with
    | some nxt => refWalk ref ps nxt
    | none => JValue.obj [("$ref", JValue.str ref)]

/-- Model of Python `str.split("/")` over the character list: every slash
separates; the empty string splits to a single empty segment. -/
def splitSlash : List Char → List (List Char)
  | [] => [[]]
  | c :: rest =>
    let r := splitSlash rest
    if c = '/' then [] :: r
    else
      match r with
      | h :: t => (c :: h) :: t
      | [] => [[c]]

/-- Model of Python `ref.startswith("#/")`. -/
def startsWithLocal (ref : String) : Bool :=
  match ref.data with
  | '#' :: '/' :: _ => true
  | _ => false

/-- Embedding of `_resolve_local_ref`: non-local refs (not starting with
`#/`) give the sentinel; local refs walk the segments of
`ref[2:].split("/")`. -/
def resolveLocalRef (doc : JValue) (ref : String) : JValue :=
  if startsWithLocal ref then
    refWalk ref ((splitSlash (ref.data.drop 2)).map String.mk) doc
  else JValue.obj [("$ref", JValue.str ref)]

/-- Outcome of `_deref`: a value returned normally, or the Python
`AttributeError` raised when the `$ref` key holds a non-string. -/
inductive DerefResult where
  | value : JValue → DerefResult
  | typeError : DerefResult

/-- Fuel-indexed embedding of `_deref`: a dict carrying `$ref` is resolved
and dereferenced again, anything else is returned as is. `none` means the
recursion depth exceeded the fuel; Python divergence (RecursionError)
corresponds to `none` for every fuel. -/
def derefFuel (doc : JValue) : Nat → JValue → Option DerefResult
  | 0, _ => none
  | fuel + 1, v =>
    match v with
    | .obj kvs =>
      match kvs.lookup "$ref" with
      | some (.str r) => derefFuel doc fuel (resolveLocalRef doc r)
      | some _ => some .typeError
      | none => some (.value (.obj kvs))
    | v => some (.value v)

/-- Document with a component whose resolved value is again a `$ref` to
itself. -/
def cyclicDoc : JValue :=
  .obj [("components", .obj [("schemas", .obj
    [("A", .obj [("$ref", .str "#/components/schemas/A")])])])]

/-- Node starting the self-referential chain in `cyclicDoc`. -/
def cyclicNode : JValue := .obj [("$ref", .str "#/components/schemas/A")]

/-- Node whose pointer resolves nowhere in an empty document, so that
`_resolve_local_ref` yields its unresolved-reference sentinel. -/
def unresolvedNode : JValue := .obj [("$ref", .str "#/missing")]

/-- C10: `_deref` does not terminate on every input. On a document whose
`$ref` chain forms a cycle the recursion never returns, and — worse —
on any unresolvable pointer the sentinel `\x7b"$ref": ref\x7d` returned by
`_resolve_local_ref` itself carries a `$ref` key, so `_deref` re-resolves
it forever; the documented non-fatal sentinel can never reach a caller
that goes through `_deref`. Formally: at every fuel the embedding is
still running. -/
theorem deref_diverges_on_cycle_and_unresolved :
    (∀ fuel, derefFuel cyclicDoc fuel cyclicNode = none) ∧
    (∀ fuel, derefFuel (JValue.obj []) fuel unresolvedNode = none) := by
  constructor
  · intro fuel
    induction fuel with
    | zero => rfl
    | succ n ih =>
      have hstep : derefFuel cyclicDoc (n + 1) cyclicNode = derefFuel cyclicDoc n cyclicNode := by
        rfl
      rw [hstep, ih]
  · intro fuel
    induction fuel with
    | zero => rfl
    | succ n ih =>
      have hstep : derefFuel (JValue.obj []) (n + 1) unresolvedNode
          = derefFuel (JValue.obj []) n unresolvedNode := by
        rfl
      rw [hstep, ih]

-- ---------------------------------------------------------------------
-- Schema sampler (sampler.py)
-- ---------------------------------------------------------------------

/-- Python truthiness of a JSON value. -/
def pyTruthy : JValue → Bool
  | .null => false
  | .bool b => b
  | .num q => decide (q ≠ 0)
  | .str s => decide (s ≠ "")
  | .arr [] => false
  | .arr (_ :: _) => true
  | .obj [] => false
  | .obj (_ :: _) => true

/-- Python `isinstance(v, (int, float))`, under which `bool` also counts
(a Python `bool` is an `int`); gives the numeric value. -/
def asPyNumber : JValue → Option Rat
  | .num q => some q
  | .bool b => some (if b then 1 else 0)
  | _ => none

/-- Boolean form of the `isinstance(v, (int, float))` test. -/
def isPyNumber (v : JValue) : Bool := (asPyNumber v).isSome

/-- Numeric value of a value already known to pass `isPyNumber`. -/
def pyNumOf (v : JValue) : Rat := (asPyNumber v).getD 0

/-- Model of Python `str(v)` for the values the sampler meets. Scalars are
exact (ints because every number in the analysed inputs is integral);
non-integral rationals and containers are summarised by fixed placeholder
text, since no claim exercises `str()` of a float, list or dict. -/
def pyStr : JValue → String
  | .null => "None"
  | .bool true => "True"
  | .bool false => "False"
  | .num q => if q.den = 1 then toString q.num else toString q
  | .str s => s
  | .arr _ => "[...]"
  | .obj _ => "\x7b...\x7d"

/-- ASCII model of Python `str.lower()` (the sampler only lowercases ASCII
format and hint names). -/
def pyLower (s : String) : String := ⟨s.data.map Char.toLower⟩

/-- Python substring test `needle in hay` over character lists (the empty
needle is contained in everything). -/
def listInfix (needle : List Char) : List Char → Bool
  | [] => needle.isEmpty
  | c :: rest => List.isPrefixOf needle (c :: rest) || listInfix needle rest

/-- Python `k in container` for a string needle: list membership by
equality, dict key membership, substring test for strings; `none` models
the `TypeError` raised on non-container values. -/
def pyInContains (container : JValue) (k : String) : Option Bool :=
  match container with
  | .arr xs => some (xs.any (fun v => match v with | .str s => decide (s = k) | _ => false))
  | .obj kvs => some (kvs.any (fun p => decide (p.1 = k)))
  | .str s => some (listInfix k.data s.data)
  | _ => none

/-- Python dict assignment `d[k] = v`: replace the binding in place when
the key exists, else append it. -/
def dictSet (kvs : List (String × JValue)) (k : String) (v : JValue) : List (String × JValue) :=
  if kvs.any (fun p => p.1 = k) then kvs.map (fun p => if p.1 = k then (k, v) else p)
  else kvs ++ [(k, v)]

/-- Python `d.update(u)`: assign every binding of `u` in order. -/
def dictUpdate (base upd : List (String × JValue)) : List (String × JValue) :=
  upd.foldl (fun acc p => dictSet acc p.1 p.2) base

/-- Python slice `s[:m]`, including the negative-index meaning. -/
def pySliceTo (s : String) (m : Int) : String :=
  if m ≥ 0 then ⟨s.data.take m.toNat⟩
  else ⟨s.data.take (s.length + m).toNat⟩

/-- Python string repetition `s * n`. -/
def pyStrRepeat (s : String) (n : Nat) : String := ⟨(List.replicate n s.data).flatten⟩

/-- Scalar filter of `_pick_enum`: `str`/`int`/`float` (hence also bool)
whose `str()` is non-empty. -/
def enumScalarOk : JValue → Bool
  | .str s => decide (s ≠ "")
  | .num _ => true
  | .bool _ => true
  | _ => false

/-- Embedding of `_pick_enum`: first non-empty scalar, else the first
entry, else `None`. -/
def pickEnum (values : List JValue) : JValue :=
  match values.find? enumScalarOk with
  | some v => v
  | none => values.headD .null

/-- Lookup returning the value only when it passes `isPyNumber`, as in the
guarded reads of `_coerce_number`. -/
def numericGet (schema : List (String × JValue)) (k : String) : Option JValue :=
  match schema.lookup k with
  | some v => if isPyNumber v then some v else none
  | none => none

/-- Embedding of `_coerce_number`: numeric `example`, then numeric
`default`, then the midpoint of both bounds, then a single bound, else 1.
Values accepted by the isinstance test are returned unchanged. -/
def coerceNumber (schema : List (String × JValue)) : JValue :=
  match numericGet schema "example" with
  | some ex => ex
  | none =>
    match numericGet schema "default" with
    | some d => d
    | none =>
      match numericGet schema "minimum", numericGet schema "maximum" with
      | some mn, some mx => .num ((pyNumOf mn + pyNumOf mx) / 2)
      | some mn, none => mn
      | none, some mx => mx
      | none, none => .num 1

/-- Embedding of `_coerce_boolean`: boolean `example`, then boolean
`default`, else `True`. -/
def coerceBoolean (schema : List (String × JValue)) : JValue :=
  match schema.lookup "example" with
  | some (.bool b) => .bool b
  | _ =>
    match schema.lookup "default" with
    | some (.bool b) => .bool b
    | _ => .bool true

/-- Fixed UUID constant of the sampler. -/
def uuidConst : String := "00000000-0000-4000-8000-000000000000"

/-- Fixed email constant of the sampler. -/
def emailConst : String := "user@example.com"

/-- Fixed date constant of the sampler. -/
def dateConst : String := "2024-01-02"

/-- Fixed date-time constant of the sampler. -/
def dateTimeConst : String := "2024-01-02T03:04:05Z"

/-- Embedding of `_coerce_string`: non-empty string `example`, then a
stringified enum pick, then format constants, then the name-hint
heuristic, else "1". -/
def coerceString (schema : List (String × JValue)) (nameHint : Option String) : String :=
  let fmt : String :=
    match schema.lookup "format" with
    | some v => if pyTruthy v then pyLower (pyStr v) else ""
    | none => ""
  let exM : Option String :=
    match schema.lookup "example" with
    | some (.str s) => if s = "" then none else some s
    | _ => none
  match exM with
  | some s => s
  | none =>
    match schema.lookup "enum" with
    | some (.arr (v :: vs)) => pyStr (pickEnum (v :: vs))
    | _ =>
      if fmt = "uuid" then uuidConst
      else if fmt = "date" then dateConst
      else if fmt = "date-time" ∨ fmt = "datetime" ∨ fmt = "rfc3339" then dateTimeConst
      else if fmt = "email" then emailConst
      else if fmt = "uri" ∨ fmt = "url" then "https://example.com"
      else
        match nameHint with
        | some n0 =>
          let n := pyLower n0
          if n = "id" ∨ n = "user_id" ∨ n = "uid" then "1"
          else if n = "page" ∨ n = "p" then "1"
          else if listInfix "name".data n.data then "alice"
          else if listInfix "query".data n.data ∨ n = "q" ∨ n = "search" then "test"
          else "1"
        | none => "1"

/-- Embedding of `str(schema.get("type") or "").lower()`. -/
def typOf (schema : List (String × JValue)) : String :=
  match schema.lookup "type" with
  | some v => if pyTruthy v then pyLower (pyStr v) else ""
  | none => ""

/-- Embedding of the min/max-length clamp at the end of the string branch
of `sample_schema_value`: repeat the base value to reach `minLength` and
truncate to `minLength`, then truncate to `maxLength`. `none` models the
Python errors on an empty base with positive `minLength`
(ZeroDivisionError) or non-integer bounds (TypeError). -/
def stringClamp (schema : List (String × JValue)) (result : String) : Option String :=
  let step1 : Option String :=
    match schema.lookup "minLength" with
    | none => some result
    | some JValue.null => some result
    | some mlv =>
      match asPyNumber mlv with
      | none => none
      | some ml =>
        if (result.length : Rat) < ml then
          if result.length = 0 then none
          else if ml.den = 1 then
            some (pySliceTo (pyStrRepeat result ((ml.num / (result.length : Int)) + 1).toNat) ml.num)
          else none
        else some result
  match step1 with
  | none => none
  | some r1 =>
    match schema.lookup "maxLength" with
    | none => some r1
    | some JValue.null => some r1
    | some mxv =>
      match asPyNumber mxv with
      | none => none
      | some mx =>
        if (r1.length : Rat) > mx then
          if mx.den = 1 then some (pySliceTo r1 mx.num) else none
        else some r1

/-- Embedding of the pattern `if "$ref" in sub and doc: sub = _deref(sub, doc)`
used throughout the sampler: dereference a dict that carries `$ref` when a
truthy document is around, else keep the value; `none` models divergence
or the AttributeError of a non-string ref. -/
def derefIfRef (docT : Bool) (doc : Option JValue) (fuel : Nat) (v : JValue) : Option JValue :=
  match v with
  | .obj kvs =>
    if (kvs.lookup "$ref").isSome && docT then
      match doc with
      | some d =>
        match derefFuel d fuel v with
        | some (.value v2) => some v2
        | _ => none
      | none => some v
    else some v
  | v => some v

/-- Embedding of the `allOf` loop of `sample_schema_value`. The outer
`none` means the loop fell through to the next keyword, `some r` that it
returned with result `r` (`r = none` modelling divergence). Note the
faithful transcription of the source: the `return` sits inside the `for`
loop, so the first dict member already triggers a recursive call on
`temp_schema`, which still contains the original `allOf` key. -/
def allOfLoop (recur : List (String × JValue) → Option String → Option JValue)
    (docT : Bool) (doc : Option JValue) (fuel : Nat)
    (schema : List (String × JValue)) (nameHint : Option String) :
    List (String × JValue) → List JValue → Option (Option JValue)
  | _, [] => none
  | merged, sub :: rest =>
    match sub with
    | .obj _ =>
      match derefIfRef docT doc fuel sub with
      | none => some none
      | some sub2 =>
        match sub2 with
        | .obj kvs2 =>
          let props0 := ((kvs2.lookup "properties").getD .null)
          let propsV := if pyTruthy props0 then props0 else .obj []
          match propsV with
          | .obj propKvs =>
            let merged2 := dictUpdate merged propKvs
            let tVal := (kvs2.lookup "type").getD ((schema.lookup "type").getD .null)
            let temp := dictSet (dictSet schema "properties" (.obj merged2)) "type" tVal
            some (recur temp nameHint)
          | _ => some none
        | _ => allOfLoop recur docT doc fuel schema nameHint merged rest
    | _ => allOfLoop recur docT doc fuel schema nameHint merged rest

/-- Embedding of the `oneOf` loop of `sample_schema_value`: first dict
branch whose sampled result is not `None`; same outer/inner `Option`
encoding as `allOfLoop`. -/
def oneOfLoop (recur : List (String × JValue) → Option String → Option JValue)
    (docT : Bool) (doc : Option JValue) (fuel : Nat) (nameHint : Option String) :
    List JValue → Option (Option JValue)
  | [] => none
  | sub :: rest =>
    match sub with
    | .obj _ =>
      match derefIfRef docT doc fuel sub with
      | none => some none
      | some (.obj kvs2) =>
        match recur kvs2 nameHint with
        | none => some none
        | some .null => oneOfLoop recur docT doc fuel nameHint rest
        | some v => some (some v)
      | some _ => oneOfLoop recur docT doc fuel nameHint rest
    | _ => oneOfLoop recur docT doc fuel nameHint rest

/-- Embedding of the `anyOf` branch of `sample_schema_value`: only the
first entry is considered (`schema["anyOf"][0] or \x7b\x7d`); same
outer/inner `Option` encoding as `allOfLoop`. -/
def anyOfStep (recur : List (String × JValue) → Option String → Option JValue)
    (docT : Bool) (doc : Option JValue) (fuel : Nat) (nameHint : Option String)
    (first0 : JValue) : Option (Option JValue) :=
  let first := if pyTruthy first0 then first0 else .obj []
  match first with
  | .obj _ =>
    match derefIfRef docT doc fuel first with
    | none => some none
    | some (.obj kvs2) => some (recur kvs2 nameHint)
    | some _ => none
  | _ => none

/-- Embedding of the first properties loop of the object branch: include a
property when it is listed in `required`, or include all when `required`
is falsy; only dict-valued property schemas are sampled. -/
def samplePropsLoop (recur : List (String × JValue) → Option String → Option JValue)
    (docT : Bool) (doc : Option JValue) (fuel : Nat) (req : JValue) :
    List (String × JValue) → List (String × JValue) → Option (List (String × JValue))
  | out, [] => some out
  | out, (k, v) :: rest =>
    match pyInContains req k with
    | none => none
    | some inReq =>
      if inReq || ! pyTruthy req then
        match v with
        | .obj _ =>
          match derefIfRef docT doc fuel v with
          | none => none
          | some (.obj kvs2) =>
            match recur kvs2 (some k) with
            | none => none
            | some sv => samplePropsLoop recur docT doc fuel req (dictSet out k sv) rest
          | some _ => none
        | _ => samplePropsLoop recur docT doc fuel req out rest
      else samplePropsLoop recur docT doc fuel req out rest

/-- Embedding of the `minProperties` top-up loop of the object branch:
add not-yet-present declared properties until the count reaches
`minProperties`. -/
def minPropsLoop (recur : List (String × JValue) → Option String → Option JValue)
    (docT : Bool) (doc : Option JValue) (fuel : Nat) (mp : Rat) :
    List (String × JValue) → List (String × JValue) → Option (List (String × JValue))
  | out, [] => some out
  | out, (k, v) :: rest =>
    if out.any (fun p => p.1 = k) then minPropsLoop recur docT doc fuel mp out rest
    else
      match v with
      | .obj _ =>
        match derefIfRef docT doc fuel v with
        | none => none
        | some (.obj kvs2) =>
          match recur kvs2 (some k) with
          | none => none
          | some sv =>
            let out2 := dictSet out k sv
            if (out2.length : Rat) ≥ mp then some out2
            else minPropsLoop recur docT doc fuel mp out2 rest
        | some _ => none
      | _ =>
        if (out.length : Rat) ≥ mp then some out
        else minPropsLoop recur docT doc fuel mp out rest

/-- Embedding of the object branch of `sample_schema_value`. -/
def sampleObject (recur : List (String × JValue) → Option String → Option JValue)
    (docT : Bool) (doc : Option JValue) (fuel : Nat)
    (schema : List (String × JValue)) : Option JValue :=
  let props0 := (schema.lookup "properties").getD .null
  let propsV := if pyTruthy props0 then props0 else .obj []
  match propsV with
  | .obj propKvs =>
    let required0 := (schema.lookup "required").getD .null
    let req := if pyTruthy required0 then required0 else .arr []
    match samplePropsLoop recur docT doc fuel req [] propKvs with
    | none => none
    | some out1 =>
      let mpV := (schema.lookup "minProperties").getD (.num 0)
      match asPyNumber mpV with
      | none => none
      | some mp =>
        let afterMin : Option (List (String × JValue)) :=
          if (out1.length : Rat) < mp then minPropsLoop recur docT doc fuel mp out1 propKvs
          else some out1
        match afterMin with
        | none => none
        | some out2 =>
          match schema.lookup "additionalProperties" with
          | some (.bool true) =>
            some (.obj (dictSet (dictSet out2 "extra_field_1" (.str "value1"))
              "extra_field_2" (.num 42)))
          | some (.obj apKvs) =>
            match recur apKvs (some "additional") with
            | none => none
            | some av => some (.obj (dictSet out2 "additional_field" av))
          | _ => some (.obj out2)
  | _ => none

/-- Embedding of the array branch of `sample_schema_value`: sample `items`
`max(minItems, 1)` times, capped at `maxItems` when present, else at 3. -/
def sampleArray (recur : List (String × JValue) → Option String → Option JValue)
    (docT : Bool) (doc : Option JValue) (fuel : Nat)
    (schema : List (String × JValue)) (nameHint : Option String) : Option JValue :=
  let items0 := (schema.lookup "items").getD .null
  let items := if pyTruthy items0 then items0 else .obj []
  let miV := (schema.lookup "minItems").getD (.num 0)
  let fallbackArr : Option JValue :=
    if asPyNumber miV = some 0 then some (.arr []) else some (.arr [.null])
  match items with
  | .obj _ =>
    match derefIfRef docT doc fuel items with
    | none => none
    | some (.obj ikvs) =>
      match asPyNumber miV with
      | none => none
      | some mi =>
        let c1 : Rat := max mi 1
        let cO : Option Rat :=
          match schema.lookup "maxItems" with
          | none => some (min c1 3)
          | some JValue.null => some (min c1 3)
          | some mxv =>
            match asPyNumber mxv with
            | none => none
            | some mx => some (min c1 mx)
        match cO with
        | none => none
        | some c =>
          if c.den = 1 then
            match c.num.toNat with
            | 0 => some (.arr [])
            | n + 1 =>
              match recur ikvs nameHint with
              | none => none
              | some item => some (.arr (List.replicate (n + 1) item))
          else none
    | some _ => fallbackArr
  | _ => fallbackArr

/-- Embedding of the declared-`type` dispatch tail of
`sample_schema_value` (object, array, integer/number, boolean, null,
string, else the string fallback). -/
def sampleByType (recur : List (String × JValue) → Option String → Option JValue)
    (docT : Bool) (doc : Option JValue) (fuel : Nat)
    (schema : List (String × JValue)) (nameHint : Option String) : Option JValue :=
  let typ := typOf schema
  if typ = "object" then sampleObject recur docT doc fuel schema
  else if typ = "array" then sampleArray recur docT doc fuel schema nameHint
  else if typ = "integer" ∨ typ = "number" then some (coerceNumber schema)
  else if typ = "boolean" then some (coerceBoolean schema)
  else if typ = "null" then some .null
  else if typ = "string" then (stringClamp schema (coerceString schema nameHint)).map .str
  else some (.str (coerceString schema nameHint))

/-- Fuel-indexed embedding of `sample_schema_value`, keyword priority as
in the source: top-level `$ref`, `enum`, `allOf`, `oneOf`, `anyOf` (`not`
is a no-op), then the `type` dispatch. `none` means the recursion depth
exceeded the fuel (or a Python exception); divergence of the original
corresponds to `none` at every fuel. -/
def sampleSchemaValue (doc : Option JValue) :
    Nat → List (String × JValue) → Option String → Option JValue
  | 0, _, _ => none
  | fuel + 1, schema0, nameHint =>
    let docT : Bool := match doc with | some d => pyTruthy d | none => false
    let recur := sampleSchemaValue doc fuel
    let refStep : Option (Option (List (String × JValue))) :=
      if (schema0.lookup "$ref").isSome && docT then
        match doc with
        | some d =>
          match derefFuel d fuel (.obj schema0) with
          | some (.value (.obj kvs)) => some (some kvs)
          | some (.value _) => some none
          | _ => none
        | none => some (some schema0)
      else some (some schema0)
    match refStep with
    | none => none
    | some none => some .null
    | some (some schema) =>
      match schema.lookup "enum" with
      | some (.arr (e :: es)) => some (pickEnum (e :: es))
      | _ =>
        let afterAllOf : Option (Option JValue) :=
          match schema.lookup "allOf" with
          | some (.arr (s1 :: ss)) =>
            allOfLoop recur docT doc fuel schema nameHint [] (s1 :: ss)
          | _ => none
        match afterAllOf with
        | some r => r
        | none =>
          let afterOneOf : Option (Option JValue) :=
            match schema.lookup "oneOf" with
            | some (.arr (s1 :: ss)) => oneOfLoop recur docT doc fuel nameHint (s1 :: ss)
            | _ => none
          match afterOneOf with
          | some r => r
          | none =>
            let afterAnyOf : Option (Option JValue) :=
              match schema.lookup "anyOf" with
              | some (.arr (s1 :: _)) => anyOfStep recur docT doc fuel nameHint s1
              | _ => none
            match afterAnyOf with
            | some r => r
            | none => sampleByType recur docT doc fuel schema nameHint

/-- First member of the concrete `allOf` list: an object contributing
property `a`. -/
def allOfSub1 : JValue :=
  .obj [("type", .str "object"), ("properties", .obj [("a", .obj [("type", .str "string")])])]

/-- Second member of the concrete `allOf` list: an object contributing
property `b`. -/
def allOfSub2 : JValue :=
  .obj [("type", .str "object"), ("properties", .obj [("b", .obj [("type", .str "integer")])])]

/-- Concrete schema `\x7ballOf: [allOfSub1, allOfSub2]\x7d`. -/
def allOfSchema : List (String × JValue) := [("allOf", .arr [allOfSub1, allOfSub2])]

/-- The `temp_schema` the `allOf` branch builds from `allOfSchema` after
merging only the first member: the original `allOf` key is still present,
so sampling it re-enters the same branch and rebuilds the same schema. -/
def allOfTemp : List (String × JValue) :=
  [("allOf", .arr [allOfSub1, allOfSub2]),
   ("properties", .obj [("a", .obj [("type", .str "string")])]),
   ("type", .str "object")]

/-- C3: the `allOf` branch of `sample_schema_value` does not merge the
property sets of all members and sample the merged object. Its `return`
sits inside the member loop, so only the first member's properties are
merged, and the rebuilt `temp_schema` still contains `allOf`, so the
recursion re-enters the same branch forever: on a two-member `allOf` the
embedding yields no value at any recursion depth (the Python original
dies with RecursionError and property `b` is never produced). -/
theorem sample_allOf_diverges :
    ∀ fuel, sampleSchemaValue none fuel allOfSchema none = none := by
  have key : ∀ fuel, sampleSchemaValue none fuel allOfTemp none = none := by
    intro fuel
    induction fuel with
    | zero => rfl
    | succ n ih =>
      have hstep : sampleSchemaValue none (n + 1) allOfTemp none
          = sampleSchemaValue none n allOfTemp none := rfl
      rw [hstep, ih]
  intro fuel
  cases fuel with
  | zero => rfl
  | succ n =>
    have hstep : sampleSchemaValue none (n + 1) allOfSchema none
        = sampleSchemaValue none n allOfTemp none := rfl
    rw [hstep, key n]

/-- String schema carrying only `type: string` and a `minLength`. -/
def strSchemaOf (minLen : Nat) : List (String × JValue) :=
  [("type", .str "string"), ("minLength", .num minLen)]

/-- Array schema with string items, a `minItems` and a `maxItems`. -/
def arrSchemaMax (mi mx : Nat) : List (String × JValue) :=
  [("type", .str "array"), ("items", .obj [("type", .str "string")]),
   ("minItems", .num mi), ("maxItems", .num mx)]

/-- Array schema with string items and a `minItems` but no `maxItems`. -/
def arrSchemaNoMax (mi : Nat) : List (String × JValue) :=
  [("type", .str "array"), ("items", .obj [("type", .str "string")]),
   ("minItems", .num mi)]

lemma flatten_replicate_length (l : List Char) (m : Nat) :
    ((List.replicate m l).flatten).length = m * l.length := by
  induction m with
  | zero => simp
  | succ k ih =>
    simp only [List.replicate_succ, List.flatten_cons, List.length_append, ih]
    ring

lemma pyStrRepeat_length (s : String) (n : Nat) : (pyStrRepeat s n).length = n * s.length := by
  have h2 : (pyStrRepeat s n).length = ((List.replicate n s.data).flatten).length := rfl
  rw [h2, flatten_replicate_length]
  rfl

lemma stringClamp_minLen (minLen : Nat) :
    ∃ s : String, stringClamp (strSchemaOf minLen) "1" = some s ∧ minLen ≤ s.length := by
  have hlk : List.lookup "minLength" (strSchemaOf minLen) = some (.num minLen) := rfl
  have hlk2 : List.lookup "maxLength" (strSchemaOf minLen) = none := rfl
  by_cases h : 1 < minLen
  · refine ⟨pySliceTo (pyStrRepeat "1" ((((minLen : Rat)).num / (("1".length : Int))) + 1).toNat)
      ((minLen : Rat)).num, ?_, ?_⟩
    · simp only [stringClamp, hlk, hlk2, asPyNumber]
      have hq : (("1".length : Nat) : Rat) < (minLen : Rat) := by exact_mod_cast h
      rw [if_pos hq]
      have h0 : ¬ ("1".length = 0) := by decide
      rw [if_neg h0]
      have hden : ((minLen : Rat)).den = 1 := Rat.den_natCast minLen
      rw [if_pos hden]
    · have hnum : ((minLen : Rat)).num = (minLen : Int) := Rat.num_natCast minLen
      have hone : ("1".length : Int) = 1 := rfl
      rw [hnum, hone]
      have htn : ((minLen : Int) / 1 + 1).toNat = minLen + 1 := by
        rw [Int.ediv_one]; omega
      rw [htn]
      have hrep : (pyStrRepeat "1" (minLen + 1)).length = minLen + 1 := by
        rw [pyStrRepeat_length]
        have h1 : "1".length = 1 := rfl
        rw [h1]; ring
      have hnn : (0 : Int) ≤ (minLen : Int) := Int.natCast_nonneg minLen
      have hslice : pySliceTo (pyStrRepeat "1" (minLen + 1)) (minLen : Int)
          = ⟨(pyStrRepeat "1" (minLen + 1)).data.take ((minLen : Int)).toNat⟩ := by
        unfold pySliceTo
        rw [if_pos (by exact hnn)]
      rw [hslice]
      have hlen2 : (⟨(pyStrRepeat "1" (minLen + 1)).data.take ((minLen : Int)).toNat⟩ : String).length
          = min ((minLen : Int)).toNat (pyStrRepeat "1" (minLen + 1)).length := by
        have hs : (⟨(pyStrRepeat "1" (minLen + 1)).data.take ((minLen : Int)).toNat⟩ : String).length
            = ((pyStrRepeat "1" (minLen + 1)).data.take ((minLen : Int)).toNat).length := rfl
        rw [hs, List.length_take]
        rfl
      rw [hlen2, hrep]
      omega
  · refine ⟨"1", ?_, ?_⟩
    · simp only [stringClamp, hlk, hlk2, asPyNumber]
      have hq : ¬ ((("1".length : Nat) : Rat) < (minLen : Rat)) := by
        intro hc
        exact h (by exact_mod_cast hc)
      rw [if_neg hq]
    · have h1 : "1".length = 1 := rfl
      omega

lemma sample_array_max (mi mx fuel : Nat) :
    sampleSchemaValue none (fuel + 2) (arrSchemaMax mi mx) none
      = some (.arr (List.replicate (min (max mi 1) mx) (.str "1"))) := by
  have hred : sampleSchemaValue none (fuel + 2) (arrSchemaMax mi mx) none
      = sampleArray (sampleSchemaValue none (fuel + 1)) false none (fuel + 1)
          (arrSchemaMax mi mx) none := rfl
  rw [hred]
  have h1 : List.lookup "items" (arrSchemaMax mi mx) = some (.obj [("type", .str "string")]) := rfl
  have h2 : List.lookup "minItems" (arrSchemaMax mi mx) = some (.num mi) := rfl
  have h3 : List.lookup "maxItems" (arrSchemaMax mi mx) = some (.num mx) := rfl
  have h4 : derefIfRef false none (fuel + 1) (.obj [("type", .str "string")])
      = some (.obj [("type", .str "string")]) := rfl
  simp only [sampleArray, h1, h2, h3, h4, asPyNumber, Option.getD, pyTruthy, if_true]
  have hc : min (max (mi : Rat) 1) (mx : Rat) = ((min (max mi 1) mx : Nat) : Rat) := by
    push_cast
    rfl
  rw [hc]
  have hden : (((min (max mi 1) mx : Nat)) : Rat).den = 1 := Rat.den_natCast _
  rw [if_pos hden]
  have hnum : (((min (max mi 1) mx : Nat)) : Rat).num = ((min (max mi 1) mx : Nat) : Int) :=
    Rat.num_natCast _
  rw [hnum, Int.toNat_natCast]
  cases hmin : min (max mi 1) mx with
  | zero => rfl
  | succ n =>
    have hrecur : sampleSchemaValue none (fuel + 1) [("type", .str "string")] none
        = some (.str "1") := rfl
    simp only [hrecur]

lemma sample_array_noMax (mi fuel : Nat) :
    sampleSchemaValue none (fuel + 2) (arrSchemaNoMax mi) none
      = some (.arr (List.replicate (min (max mi 1) 3) (.str "1"))) := by
  have hred : sampleSchemaValue none (fuel + 2) (arrSchemaNoMax mi) none
      = sampleArray (sampleSchemaValue none (fuel + 1)) false none (fuel + 1)
          (arrSchemaNoMax mi) none := rfl
  rw [hred]
  have h1 : List.lookup "items" (arrSchemaNoMax mi) = some (.obj [("type", .str "string")]) := rfl
  have h2 : List.lookup "minItems" (arrSchemaNoMax mi) = some (.num mi) := rfl
  have h3 : List.lookup "maxItems" (arrSchemaNoMax mi) = none := rfl
  have h4 : derefIfRef false none (fuel + 1) (.obj [("type", .str "string")])
      = some (.obj [("type", .str "string")]) := rfl
  simp only [sampleArray, h1, h2, h3, h4, asPyNumber, Option.getD, pyTruthy, if_true]
  have hc : min (max (mi : Rat) 1) (3 : Rat) = ((min (max mi 1) 3 : Nat) : Rat) := by
    push_cast
    rfl
  rw [hc]
  have hden : (((min (max mi 1) 3 : Nat)) : Rat).den = 1 := Rat.den_natCast _
  rw [if_pos hden]
  have hnum : (((min (max mi 1) 3 : Nat)) : Rat).num = ((min (max mi 1) 3 : Nat) : Int) :=
    Rat.num_natCast _
  rw [hnum, Int.toNat_natCast]
  cases hmin : min (max mi 1) 3 with
  | zero => rfl
  | succ n =>
    have hrecur : sampleSchemaValue none (fuel + 1) [("type", .str "string")] none
        = some (.str "1") := rfl
    simp only [hrecur]

/-- C7: a string schema with a `minLength` and no `example`/`enum`
samples to a string of length at least `minLength` (the base value is
repeated and truncated); an array schema with string items samples
`max(minItems, 1)` items capped at `maxItems` when present (so
`minItems = maxItems = 2` gives exactly 2 items) and capped at the
default 3 otherwise. -/
theorem sample_string_minLength_array_minItems (minLen mi mx fuel : Nat) :
    (∃ s : String, sampleSchemaValue none (fuel + 1) (strSchemaOf minLen) none
        = some (.str s) ∧ minLen ≤ s.length) ∧
    sampleSchemaValue none (fuel + 2) (arrSchemaMax mi mx) none
      = some (.arr (List.replicate (min (max mi 1) mx) (.str "1"))) ∧
    sampleSchemaValue none (fuel + 2) (arrSchemaNoMax mi) none
      = some (.arr (List.replicate (min (max mi 1) 3) (.str "1"))) := by
  refine ⟨?_, sample_array_max mi mx fuel, sample_array_noMax mi fuel⟩
  have hred : sampleSchemaValue none (fuel + 1) (strSchemaOf minLen) none
      = (stringClamp (strSchemaOf minLen) "1").map .str := rfl
  obtain ⟨s, hs, hlen⟩ := stringClamp_minLen minLen
  exact ⟨s, by rw [hred, hs]; rfl, hlen⟩

-- ---------------------------------------------------------------------
-- Dry-run planned request count (probes.py, run_basic_probes)
-- ---------------------------------------------------------------------

/-- Embedding of the identity-selection step of `run_basic_probes`: with
`use_all_identities` false and a non-empty list, keep only the first. -/
def chooseIdentities (idents : List String) (useAll : Bool) : List String :=
  match useAll, idents with
  | false, x :: _ => [x]
  | _, l => l

/-- Embedding of the `planned_requests` expression of `run_basic_probes`,
with Python operator precedence made explicit: the conditional governs
the whole `1 + max(1, n)` factor, so zero identities give a factor of 1,
not 2. -/
def plannedRequests (numEndpoints numIdentities : Nat) : Nat :=
  numEndpoints * (if numIdentities ≠ 0 then 1 + max 1 numIdentities else 1)

/-- Spec-side formula of section 4.9, stated from the spec wording:
`planned_requests = endpoints × (1 + max(1, identity_count))`. -/
def plannedRequestsSpec (numEndpoints numIdentities : Nat) : Nat :=
  numEndpoints * (1 + max 1 numIdentities)

/-- Summary fields the dry-run branch computes before returning (it
returns before any HTTP client is even constructed, so no network I/O is
possible on this path). -/
structure DrySummary where
  endpoints : Nat
  authUsed : List String
  planned : Nat
  dryRun : Bool
deriving DecidableEq

/-- Embedding of the dry-run branch of `run_basic_probes`. -/
def runBasicProbesDry (endpointCount : Nat) (idents : List String) (useAll : Bool) : DrySummary :=
  let chosen := chooseIdentities idents useAll
  ⟨endpointCount, chosen, plannedRequests endpointCount chosen.length, true⟩

/-- Counterexample to C2: with one endpoint and zero identities the code
computes `planned_requests = 1`, while the claimed formula
`endpoints × (1 + max(1, identity_count))` gives 2. -/
theorem planned_requests_zero_identities_counterexample :
    (runBasicProbesDry 1 [] true).planned = 1 ∧ plannedRequestsSpec 1 0 = 2 ∧
    (runBasicProbesDry 1 [] true).planned ≠ plannedRequestsSpec 1 0 := by
  refine ⟨rfl, rfl, ?_⟩
  decide

/-- C2 (amended): the dry run computes
`planned_requests = endpoints × (1 + identity_count)` when at least one
identity is chosen — agreeing with the spec formula there — and
`endpoints × 1` when the chosen identity list is empty. -/
theorem planned_requests_formula (endpointCount : Nat) (idents : List String) (useAll : Bool) :
    (runBasicProbesDry endpointCount idents useAll).planned
      = (if (chooseIdentities idents useAll).length = 0 then endpointCount
         else endpointCount * (1 + (chooseIdentities idents useAll).length)) ∧
    (0 < (chooseIdentities idents useAll).length →
      (runBasicProbesDry endpointCount idents useAll).planned
        = plannedRequestsSpec endpointCount (chooseIdentities idents useAll).length) := by
  constructor
  · unfold runBasicProbesDry plannedRequests
    by_cases h : (chooseIdentities idents useAll).length = 0
    · simp [h]
    · have hmax : max 1 (chooseIdentities idents useAll).length
          = (chooseIdentities idents useAll).length := by omega
      simp [h, hmax]
  · intro hpos
    unfold runBasicProbesDry plannedRequests plannedRequestsSpec
    have h0 : (chooseIdentities idents useAll).length ≠ 0 := by omega
    simp [h0]

/-- Witness for C2: three endpoints and two chosen identities plan
3 × (1 + 2) = 9 requests, agreeing with the spec formula. -/
theorem planned_requests_formula_witness :
    ((runBasicProbesDry 3 ["a", "b"] true).planned
      = (if (chooseIdentities ["a", "b"] true).length = 0 then 3
         else 3 * (1 + (chooseIdentities ["a", "b"] true).length))) ∧
    (runBasicProbesDry 3 ["a", "b"] true).planned
      = plannedRequestsSpec 3 (chooseIdentities ["a", "b"] true).length :=
  ⟨(planned_requests_formula 3 ["a", "b"] true).1,
   (planned_requests_formula 3 ["a", "b"] true).2 (by decide)⟩

-- ---------------------------------------------------------------------
-- Hard request budget (client.py, HttpClient._consume_budget / request)
-- ---------------------------------------------------------------------

/-- Mutable budget state of `HttpClient`: the configured `_budget`
(`max(0, hard_request_budget)`, 0 meaning unlimited) and the
`_requests_made` counter. The asyncio lock serialises `_consume_budget`,
so a sequence of calls models concurrent use faithfully. -/
structure BudgetState where
  budget : Nat
  requestsMade : Nat
deriving DecidableEq

/-- Embedding of `HttpClient._consume_budget`. -/
def consumeBudget (st : BudgetState) : Bool × BudgetState :=
  if st.budget = 0 then (true, st)
  else if st.requestsMade ≥ st.budget then (false, st)
  else (true, { st with requestsMade := st.requestsMade + 1 })

/-- Error payload of the snapshot produced when the budget gate refuses a
request, as built by `_error_snapshot` in `HttpClient.request`. -/
structure ErrorInfo where
  errType : String
  message : String
  elapsedMs : Rat
  attempts : Nat
deriving DecidableEq

/-- Snapshot of the refused request: `budget_exceeded`, zero elapsed time
and zero attempts — no network attempt took place. -/
def budgetErrSnap : ErrorInfo :=
  ⟨"budget_exceeded", "Hard request budget exhausted.", 0, 0⟩

/-- Embedding of the budget gate at the top of `HttpClient.request`:
`none` means the request passed the gate and proceeds to network I/O,
`some e` that it returned immediately with the error snapshot `e`. -/
def requestBudgetGate (st : BudgetState) : Option ErrorInfo × BudgetState :=
  match consumeBudget st with
  | (true, st2) => (none, st2)
  | (false, st2) => (some budgetErrSnap, st2)

/-- Sequence of `n` requests through the budget gate, in serialisation
order; the list records, per request, whether it proceeded (`none`) or
was refused (`some budgetErrSnap`). -/
def runRequests (st : BudgetState) : Nat → List (Option ErrorInfo) × BudgetState
  | 0 => ([], st)
  | n + 1 =>
    match requestBudgetGate st with
    | (e, st2) =>
      match runRequests st2 n with
      | (es, st3) => (e :: es, st3)

lemma runRequests_exhausted (K m n : Nat) (hK : K ≠ 0) (hm : K ≤ m) :
    (runRequests ⟨K, m⟩ n).1 = List.replicate n (some budgetErrSnap) := by
  induction n with
  | zero => rfl
  | succ k ih =>
    have hgate : requestBudgetGate ⟨K, m⟩ = (some budgetErrSnap, ⟨K, m⟩) := by
      unfold requestBudgetGate consumeBudget
      simp only [if_neg hK]
      rw [if_pos hm]
    simp only [runRequests, hgate, ih, List.replicate_succ]

lemma runRequests_split (K m n : Nat) (hK : K ≠ 0) (hm : m ≤ K) :
    (runRequests ⟨K, m⟩ n).1
      = List.replicate (min n (K - m)) none
        ++ List.replicate (n - (K - m)) (some budgetErrSnap) := by
  induction n generalizing m with
  | zero => simp [runRequests]
  | succ k ih =>
    by_cases h : m < K
    · have hgate : requestBudgetGate ⟨K, m⟩ = (none, ⟨K, m + 1⟩) := by
        unfold requestBudgetGate consumeBudget
        simp only [if_neg hK]
        rw [if_neg (by omega)]
      have hrec := ih (m + 1) (by omega)
      simp only [runRequests, hgate, hrec]
      have h1 : min (k + 1) (K - m) = min k (K - (m + 1)) + 1 := by omega
      have h2 : (k + 1) - (K - m) = k - (K - (m + 1)) := by omega
      rw [h1, h2, List.replicate_succ, List.cons_append]
    · have h1 : min (k + 1) (K - m) = 0 := by omega
      have h2 : (k + 1) - (K - m) = k + 1 := by omega
      rw [h1, h2, List.replicate_zero, List.nil_append]
      exact runRequests_exhausted K m (k + 1) hK (by omega)

lemma runRequests_unlimited (n : Nat) :
    (runRequests ⟨0, 0⟩ n).1 = List.replicate n none := by
  induction n with
  | zero => rfl
  | succ k ih =>
    have hgate : requestBudgetGate ⟨0, 0⟩ = (none, ⟨0, 0⟩) := rfl
    simp only [runRequests, hgate, ih, List.replicate_succ]

/-- C5: with `hard_request_budget = K > 0`, among any `n` requests only
the first `min n K` pass the gate on to network I/O; every later request
is answered immediately with the `budget_exceeded` error snapshot (zero
attempts, zero elapsed time, no network attempt); with budget 0 the gate
admits every request. -/
theorem budget_limits_network_requests (K n : Nat) (hK : 0 < K) :
    (runRequests ⟨K, 0⟩ n).1
      = List.replicate (min n K) none ++ List.replicate (n - K) (some budgetErrSnap) ∧
    ((runRequests ⟨K, 0⟩ n).1.countP Option.isNone = min n K) ∧
    (runRequests ⟨0, 0⟩ n).1 = List.replicate n none := by
  have hs := runRequests_split K 0 n (by omega) (by omega)
  simp only [Nat.sub_zero] at hs
  refine ⟨hs, ?_, ?_⟩
  · rw [hs]
    rw [List.countP_append]
    have h1 : (List.replicate (min n K) (none : Option ErrorInfo)).countP Option.isNone
        = min n K := by
      rw [List.countP_eq_length_filter, List.filter_replicate]
      simp
    have h2 : (List.replicate (n - K) (some budgetErrSnap)).countP Option.isNone = 0 := by
      rw [List.countP_eq_length_filter, List.filter_replicate]
      simp
    omega
  · exact runRequests_unlimited n

/-- Witness for C5: budget 2 over 5 requests admits exactly the first
two and refuses the last three. -/
theorem budget_limits_network_requests_witness :
    (runRequests ⟨2, 0⟩ 5).1
      = List.replicate (min 5 2) none ++ List.replicate (5 - 2) (some budgetErrSnap) ∧
    ((runRequests ⟨2, 0⟩ 5).1.countP Option.isNone = min 5 2) ∧
    (runRequests ⟨0, 0⟩ 5).1 = List.replicate 5 none :=
  budget_limits_network_requests 2 5 (by decide)

-- ---------------------------------------------------------------------
-- Retry loop with backoff (client.py, HttpClient.request / _sleep_backoff)
-- ---------------------------------------------------------------------

/-- Embedding of `RETRYABLE_STATUS`. -/
def RETRYABLE_STATUS : List Nat := [429, 500, 502, 503, 504]

/-- Base duration of `_sleep_backoff(attempt)`:
`min(backoff_cap_s, backoff_base * 2 ** (attempt - 1))`; the actual sleep
adds `random.uniform(0, base * 0.2)` jitter on top, modelled by the
oracle `jit` below. -/
def backoffSleepBase (cap base : Rat) (attempt : Nat) : Rat :=
  min cap (base * 2 ^ (attempt - 1))

/-- Embedding of the attempt loop of `HttpClient.request` for the case
where every send yields a response (no transport exception). `status a`
is the response status of the `a`-th send (an oracle for the target
server), `jit a` the jitter drawn for the backoff after attempt `a`.
The structural fuel argument only bounds the iteration count (the entry
point passes `maxA`, which provably suffices); the loop guard
`attempts < maxA` is the faithful `while` condition. Result: final
attempt counter, the list of backoff sleeps performed between attempts,
and the status the loop broke on (`none` only if the guard was already
false). -/
def requestLoop (status : Nat → Nat) (cap base : Rat) (jit : Nat → Rat) (maxA : Nat) :
    Nat → Nat → List Rat → Nat × List Rat × Option Nat
  | 0, attempts, sleeps => (attempts, sleeps, none)
  | fuel + 1, attempts, sleeps =>
    if attempts < maxA then
      let a := attempts + 1
      let st := status a
      if st ∈ RETRYABLE_STATUS ∧ a < maxA then
        requestLoop status cap base jit maxA fuel a
          (sleeps ++ [backoffSleepBase cap base a + jit a])
      else (a, sleeps, some st)
    else (attempts, sleeps, none)

lemma requestLoop_all_retryable (status : Nat → Nat)
    (hretry : ∀ a, status a ∈ RETRYABLE_STATUS) (cap base : Rat) (jit : Nat → Rat)
    (maxA : Nat) :
    ∀ rem attempts sleeps, attempts + rem = maxA → 1 ≤ rem →
      requestLoop status cap base jit maxA rem attempts sleeps
        = (maxA,
           sleeps ++ (List.range' (attempts + 1) (rem - 1)).map
             (fun a => backoffSleepBase cap base a + jit a),
           some (status maxA)) := by
  intro rem
  induction rem with
  | zero => intro attempts sleeps _ h1; omega
  | succ r ih =>
    intro attempts sleeps hsum _
    simp only [requestLoop]
    rw [if_pos (by omega)]
    by_cases hr : r = 0
    · subst hr
      have hlast : attempts + 1 = maxA := by omega
      rw [if_neg (by rw [hlast]; simp)]
      rw [hlast]
      simp
    · rw [if_pos ⟨hretry (attempts + 1), by omega⟩]
      rw [ih (attempts + 1) (sleeps ++ [backoffSleepBase cap base (attempts + 1) + jit (attempts + 1)])
        (by omega) (by omega)]
      have hr1 : (r + 1) - 1 = (r - 1) + 1 := by omega
      rw [hr1, List.range'_succ, List.map_cons, List.append_assoc, List.singleton_append]

/-- C6: when every attempt of a request yields a retryable status (for
example a target that always answers 503), the loop performs exactly
`max_attempts` attempts, sleeps
`min(backoff_cap_s, backoff_base · 2^(attempt−1)) + jitter` between
consecutive attempts (attempts 1 … max_attempts−1), and the snapshot
records `attempts = max_attempts` with the final retryable status — no
successful status is ever recorded. -/
theorem retry_exhausts_attempts_on_retryable (maxA : Nat) (hA : 1 ≤ maxA)
    (status : Nat → Nat) (hretry : ∀ a, status a ∈ RETRYABLE_STATUS)
    (cap base : Rat) (jit : Nat → Rat)
    (hjit : ∀ a, 0 ≤ jit a ∧ jit a ≤ backoffSleepBase cap base a * (1 / 5)) :
    requestLoop status cap base jit maxA maxA 0 []
      = (maxA,
         (List.range' 1 (maxA - 1)).map (fun a => backoffSleepBase cap base a + jit a),
         some (status maxA)) ∧
    (∀ a, backoffSleepBase cap base a ≤ backoffSleepBase cap base a + jit a ∧
      backoffSleepBase cap base a + jit a ≤ backoffSleepBase cap base a * (6 / 5)) := by
  constructor
  · have h := requestLoop_all_retryable status hretry cap base jit maxA maxA 0 [] (by omega) hA
    simpa using h
  · intro a
    obtain ⟨h0, h1⟩ := hjit a
    constructor
    · linarith
    · linarith

/-- Witness for C6: three attempts against a constant-503 target with
cap 4, base 1/2 and zero jitter give exactly three attempts, backoffs
after attempts 1 and 2, and a final 503. -/
theorem retry_exhausts_attempts_on_retryable_witness :
    (requestLoop (fun _ => 503) 4 (1 / 2) (fun _ => 0) 3 3 0 []
      = (3, (List.range' 1 2).map (fun a => backoffSleepBase 4 (1 / 2) a + (fun _ => (0 : Rat)) a),
         some 503)) ∧
    (∀ a, backoffSleepBase 4 (1 / 2) a ≤ backoffSleepBase 4 (1 / 2) a + (fun _ => (0 : Rat)) a ∧
      backoffSleepBase 4 (1 / 2) a + (fun _ => (0 : Rat)) a ≤ backoffSleepBase 4 (1 / 2) a * (6 / 5)) :=
  retry_exhausts_attempts_on_retryable 3 (by decide) (fun _ => 503)
    (fun a => show (503 : Nat) ∈ RETRYABLE_STATUS by decide)
    4 (1 / 2) (fun _ => 0)
    (fun a => ⟨le_refl 0, by
      have : (0 : Rat) ≤ backoffSleepBase 4 (1 / 2) a * (1 / 5) := by
        have hb : (0 : Rat) ≤ backoffSleepBase 4 (1 / 2) a := by
          unfold backoffSleepBase
          have h2 : (0 : Rat) ≤ (1 / 2) * 2 ^ (a - 1) := by positivity
          have h4 : (0 : Rat) ≤ 4 := by norm_num
          exact le_min h4 h2
        positivity
      exact this⟩)

-- ---------------------------------------------------------------------
-- Identity resolution and refresh-on-401
-- (probes.py, _resolve_identity / _authed_request_with_refresh / _probe_one;
--  auth/flows.py, refresh_oauth2_token / fetch_oauth2_token / perform_form_login)
-- ---------------------------------------------------------------------

/-- Model of `models.AuthScheme` restricted to the fields the refresh
path reads or writes. -/
structure AuthS where
  name : String
  type : String
  token : Option String
  cookie : Option String
  header : Option String
  tokenUrl : Option String
  refreshToken : Option String
deriving DecidableEq

/-- Oracles for the outside world of one probing run: the status the
target returns for a request under a given credential, the token a
successful `refresh_token` grant returns (`none` when the grant fails),
the token a from-scratch OAuth2 fetch returns, and the cookie a form
login captures. -/
structure ProbeWorld where
  respond : AuthS → Nat
  refreshResult : Option String
  fetchResult : String
  loginCookie : String

/-- Embedding of `refresh_oauth2_token`: `None` unless the scheme is
`oauth2` with a truthy `token_url` and `refresh_token`; otherwise the
outcome of the refresh grant. -/
def refreshOauth2Token (w : ProbeWorld) (s : AuthS) : Option String :=
  if s.type = "oauth2" ∧ (∃ u, s.tokenUrl = some u ∧ u ≠ "")
      ∧ (∃ r, s.refreshToken = some r ∧ r ≠ "") then
    w.refreshResult
  else none

/-- Embedding of `fetch_oauth2_token` under the assumption the token
endpoint answers successfully (failures raise and end the variant, which
no claim here exercises). -/
def fetchOauth2Token (w : ProbeWorld) (_s : AuthS) : String := w.fetchResult

/-- Embedding of `perform_form_login` under the assumption the login
captures a cookie. -/
def performFormLogin (w : ProbeWorld) (_s : AuthS) : String := w.loginCookie

/-- Embedding of `_resolve_identity`: `oauth2` becomes a `bearer` scheme
holding the fetched token, `form_login` becomes a `cookie` scheme holding
the captured cookie string, everything else passes through. -/
def resolveIdentity (w : ProbeWorld) (s : AuthS) : AuthS :=
  if s.type = "oauth2" then
    { name := s.name, type := "bearer", token := some (fetchOauth2Token w s),
      cookie := none, header := some "Authorization", tokenUrl := none, refreshToken := none }
  else if s.type = "form_login" then
    { name := s.name, type := "cookie", token := none,
      cookie := some (performFormLogin w s), header := none, tokenUrl := none,
      refreshToken := none }
  else s

/-- Embedding of `_authed_request_with_refresh`: issue the request under
`resolved`; when the response status is 401 and `s_original` is `oauth2`,
try one refresh-token grant falling back to a from-scratch fetch, write
the new token into `resolved` in place, and retry once; when
`s_original` is `form_login`, re-login, write the new cookie, retry
once. Result: the snapshot status that is returned (and then persisted
by `_probe_one`), the identity object after any in-place mutation, and
how many refresh/re-login attempts ran. -/
def authedRequestWithRefresh (w : ProbeWorld) (sOriginal resolved : AuthS) :
    Nat × AuthS × Nat :=
  let st := w.respond resolved
  if st = 401 then
    if sOriginal.type = "oauth2" then
      let newTok :=
        match refreshOauth2Token w sOriginal with
        | some t => if t = "" then fetchOauth2Token w sOriginal else t
        | none => fetchOauth2Token w sOriginal
      let resolved2 := { resolved with token := some newTok }
      (w.respond resolved2, resolved2, 1)
    else if sOriginal.type = "form_login" then
      let resolved2 := { resolved with cookie := some (performFormLogin w sOriginal) }
      (w.respond resolved2, resolved2, 1)
    else (st, resolved, 0)
  else (st, resolved, 0)

/-- Embedding of the per-identity call in `_probe_one`: the source passes
the same already-resolved effective identity as both `s_original` and
`resolved` (`_authed_request_with_refresh(client, ep.method, ep.url,
s_original=s, resolved=s, ...)` with `s` drawn from
`effective_identities`). -/
def probeOneIdentity (w : ProbeWorld) (eff : AuthS) : Nat × AuthS × Nat :=
  authedRequestWithRefresh w eff eff

/-- Declarative OAuth2 identity with a working refresh token. -/
def declaredOauth2 : AuthS :=
  { name := "m2m", type := "oauth2", token := none, cookie := none, header := none,
    tokenUrl := some "https://idp.example.com/token", refreshToken := some "r1" }

/-- World in which the initially fetched token is stale (the target
answers 401 to it) while the refresh grant returns a fresh token the
target accepts with 200. -/
def world401 : ProbeWorld :=
  { respond := fun a => if a.token = some "fresh" then 200 else 401,
    refreshResult := some "fresh",
    fetchResult := "stale",
    loginCookie := "sid=1" }

/-- C1: the refresh-on-401 path never executes as wired. `_probe_one`
passes the resolved effective identity (type `bearer` after OAuth2
resolution) as `s_original`, so `_authed_request_with_refresh` matches
neither `oauth2` nor `form_login`, performs zero refresh attempts and no
retry, and the persisted snapshot is the original 401 — although, had the
declarative identity been passed as `s_original` (as the helper's own
parameters and docstring intend), one refresh would run and the retried
200 would be persisted. -/
theorem probe_refresh_on_401_never_fires :
    probeOneIdentity world401 (resolveIdentity world401 declaredOauth2)
      = (401, resolveIdentity world401 declaredOauth2, 0) ∧
    authedRequestWithRefresh world401 declaredOauth2 (resolveIdentity world401 declaredOauth2)
      = (200, { resolveIdentity world401 declaredOauth2 with token := some "fresh" }, 1) := by
  constructor
  · rfl
  · simp only [authedRequestWithRefresh, refreshOauth2Token, resolveIdentity, declaredOauth2,
      world401, fetchOauth2Token]
    decide

-- ---------------------------------------------------------------------
-- Sliding-window rate limiter (client.py, AsyncRateLimiter)
-- ---------------------------------------------------------------------

/-- Clock readings of one `acquire` call: `now` is `time.monotonic()` at
entry (under the lock — the lock is held for the whole call, so calls are
fully serialised and a sequence of events models concurrent callers
faithfully), `now2` the reading after the wait-branch sleep (only used
when the window was full). -/
structure RLAcquire where
  now : Rat
  now2 : Rat
deriving DecidableEq

/-- Embedding of the prune loop
`while self._dq and (now - self._dq[0]) >= 1.0: self._dq.popleft()`. -/
def rlPrune (t : Rat) (dq : List Rat) : List Rat :=
  dq.dropWhile (fun s => decide (1 ≤ t - s))

/-- Embedding of one `AsyncRateLimiter.acquire` call: with rate 0 a
no-op recording nothing; otherwise prune, record `now` if fewer than
`rate` timestamps remain, else wait until the oldest timestamp ages out
(the sleep guarantee is a hypothesis on `now2` in `RLValid`), prune
again and record `now2`. Returns the new deque and the recorded
timestamp, if any. -/
def rlStep (rate : Nat) (dq : List Rat) (ev : RLAcquire) : List Rat × Option Rat :=
  if rate = 0 then (dq, none)
  else
    let dq1 := rlPrune ev.now dq
    if dq1.length < rate then (dq1 ++ [ev.now], some ev.now)
    else
      let dq2 := rlPrune ev.now2 dq1
      (dq2 ++ [ev.now2], some ev.now2)

/-- Timestamps recorded by a serialised sequence of acquire calls, in
completion order. -/
def rlRun (rate : Nat) : List Rat → List RLAcquire → List Rat
  | _, [] => []
  | dq, ev :: evs =>
    match rlStep rate dq ev with
    | (dq2, some r) => r :: rlRun rate dq2 evs
    | (dq2, none) => rlRun rate dq2 evs

/-- Validity of a trace of acquire events against the real clock and
sleep semantics: `time.monotonic()` is non-decreasing across the
serialised readings (`t0` is the last reading so far), `now ≤ now2`, and
when the wait branch runs, `asyncio.sleep(1.0 - (now - dq[0]))` has let
the oldest timestamp age out by the time `now2` is read. -/
def RLValid (rate : Nat) : Rat → List Rat → List RLAcquire → Prop
  | _, _, [] => True
  | t0, dq, ev :: evs =>
    t0 ≤ ev.now ∧ ev.now ≤ ev.now2 ∧
    (rate ≠ 0 → ¬ ((rlPrune ev.now dq).length < rate) →
      ∀ s0 ∈ (rlPrune ev.now dq).head?, s0 + 1 ≤ ev.now2) ∧
    RLValid rate ((rlStep rate dq ev).2.getD t0) (rlStep rate dq ev).1 evs

/-- Spacing property of a chronological record list: any `rate + 1`
consecutive recorded timestamps span at least one second. -/
def GapOK (rate : Nat) (l : List Rat) : Prop :=
  ∀ k, ∀ h : k + rate < l.length,
    l.get ⟨k, by omega⟩ + 1 ≤ l.get ⟨k + rate, h⟩

/-- Membership test of a timestamp in the rolling 1-second window
`(t - 1, t]`. -/
def inWindow (t s : Rat) : Bool :=
  decide (t - 1 < s) && decide (s ≤ t)

lemma get_index_congr (l : List Rat) (i j : Nat) (hi : i < l.length) (hj : j < l.length)
    (hij : i = j) : l.get ⟨i, hi⟩ = l.get ⟨j, hj⟩ := by
  subst hij
  rfl

lemma get_concat_last (l : List Rat) (a : Rat) (h : l.length < (l ++ [a]).length) :
    (l ++ [a]).get ⟨l.length, h⟩ = a := by
  induction l with
  | nil => rfl
  | cons x xs ih => exact ih (by simp)

lemma get_concat_of_eq_length (l : List Rat) (a : Rat) (i : Nat)
    (hi : i < (l ++ [a]).length) (hieq : i = l.length) :
    (l ++ [a]).get ⟨i, hi⟩ = a := by
  subst hieq
  exact get_concat_last _ _ hi

lemma len_concat (l : List Rat) (a : Rat) : (l ++ [a]).length = l.length + 1 := by
  rw [List.length_append]
  rfl

lemma gapOK_append (rate : Nat) (p d : List Rat) (a : Rat)
    (hg : GapOK rate (p ++ d)) (hd : d.length < rate)
    (hp : ∀ r ∈ p, r + 1 ≤ a) :
    GapOK rate ((p ++ d) ++ [a]) := by
  intro k h
  have hlen : ((p ++ d) ++ [a]).length = (p ++ d).length + 1 := len_concat _ _
  by_cases hin : k + rate < (p ++ d).length
  · have e1 : ((p ++ d) ++ [a]).get ⟨k, by omega⟩ = (p ++ d).get ⟨k, by omega⟩ :=
      List.get_append _ _
    have e2 : ((p ++ d) ++ [a]).get ⟨k + rate, h⟩ = (p ++ d).get ⟨k + rate, hin⟩ :=
      List.get_append _ _
    rw [e1, e2]
    exact hg k hin
  · have hk : k + rate = (p ++ d).length := by
      rw [hlen] at h; omega
    have hkp : k < p.length := by
      rw [List.length_append] at hk; omega
    have e1 : ((p ++ d) ++ [a]).get ⟨k, by omega⟩ = p.get ⟨k, hkp⟩ := by
      have e0 : ((p ++ d) ++ [a]).get ⟨k, by omega⟩ = (p ++ d).get ⟨k, by omega⟩ :=
        List.get_append _ _
      rw [e0]
      exact List.get_append _ _
    have e2 : ((p ++ d) ++ [a]).get ⟨k + rate, h⟩ = a :=
      get_concat_of_eq_length _ _ _ h hk
    rw [e1, e2]
    exact hp _ (p.get_mem _ _)

lemma countP_le_of_tail_fails (m : Nat) (P : Rat → Bool) (xs : List Rat)
    (hfail : ∀ i, ∀ h : i < xs.length, m ≤ i → ¬ P (xs.get ⟨i, h⟩)) :
    xs.countP P ≤ m := by
  have hsplit : xs.take m ++ xs.drop m = xs := List.take_append_drop m xs
  have hcp : xs.countP P = (xs.take m).countP P + (xs.drop m).countP P := by
    rw [← List.countP_append]
    rw [hsplit]
  have h1 : (xs.take m).countP P ≤ m :=
    le_trans (List.countP_le_length P) (List.length_take_le m xs)
  have h2 : (xs.drop m).countP P = 0 := by
    rw [List.countP_eq_zero]
    intro a ha
    obtain ⟨⟨j, hj⟩, rfl⟩ := List.mem_iff_get.mp ha
    have hmj : m + j < xs.length := by
      have hd := hj
      rw [List.length_drop] at hd
      omega
    have he : xs.get ⟨m + j, hmj⟩ = (xs.drop m).get ⟨j, hj⟩ := by
      have hgd := List.get_drop xs hmj
      simpa using hgd
    rw [← he]
    exact hfail (m + j) hmj (by omega)
  omega

lemma gapOK_of_cons (rate : Nat) (x : Rat) (xs : List Rat) (hg : GapOK rate (x :: xs)) :
    GapOK rate xs := by
  intro k h
  have h2 : (k + 1) + rate < (x :: xs).length := by
    simp only [List.length_cons]
    omega
  have hstep := hg (k + 1) h2
  have e1 : (x :: xs).get ⟨k + 1, by omega⟩ = xs.get ⟨k, by omega⟩ := rfl
  have e2 : (x :: xs).get ⟨(k + 1) + rate, h2⟩ = xs.get ⟨k + rate, h⟩ := by
    have e0 : (x :: xs).get ⟨(k + 1) + rate, h2⟩
        = (x :: xs).get ⟨(k + rate) + 1, by simp only [List.length_cons]; omega⟩ :=
      get_index_congr _ _ _ _ _ (by omega)
    rw [e0]
    rfl
  rw [e1, e2] at hstep
  exact hstep

lemma count_window_of_gap (rate : Nat) (hr : rate ≠ 0) (t : Rat) :
    ∀ l : List Rat, List.Sorted (· ≤ ·) l → GapOK rate l →
      l.countP (inWindow t) ≤ rate := by
  intro l
  induction l with
  | nil => intro _ _; simp [List.countP_nil]
  | cons x xs ih =>
    intro hs hg
    obtain ⟨hxle, hsx⟩ := List.sorted_cons.mp hs
    by_cases hPx : inWindow t x
    · rw [List.countP_cons_of_pos _ _ hPx]
      have hxs : xs.countP (inWindow t) ≤ rate - 1 := by
        apply countP_le_of_tail_fails
        intro i hi hmi
        have hrl : rate < (x :: xs).length := by
          simp only [List.length_cons]
          omega
        have hr0 : 0 + rate < (x :: xs).length := by omega
        have hgap := hg 0 hr0
        have hx0 : (x :: xs).get ⟨0, by omega⟩ = x := rfl
        have hrm1 : rate - 1 < xs.length := by
          simp only [List.length_cons] at hrl
          omega
        have hxr : (x :: xs).get ⟨0 + rate, hr0⟩ = xs.get ⟨rate - 1, hrm1⟩ := by
          have e0 : (x :: xs).get ⟨0 + rate, hr0⟩
              = (x :: xs).get ⟨(rate - 1) + 1, by simp only [List.length_cons]; omega⟩ :=
            get_index_congr _ _ _ _ _ (by omega)
          rw [e0]
          rfl
        rw [hx0, hxr] at hgap
        have hmono : xs.get ⟨rate - 1, hrm1⟩ ≤ xs.get ⟨i, hi⟩ := by
          apply List.Sorted.rel_get_of_le hsx
          simp only [Fin.mk_le_mk]
          omega
        have hx1 : t - 1 < x := by
          unfold inWindow at hPx
          simp only [Bool.and_eq_true, decide_eq_true_eq] at hPx
          exact hPx.1
        unfold inWindow
        simp only [Bool.and_eq_true, decide_eq_true_eq, not_and]
        intro _
        linarith
      omega
    · rw [List.countP_cons_of_neg _ _ (by simpa using hPx)]
      exact ih hsx (gapOK_of_cons rate x xs hg)

lemma sorted_append_singleton (l : List Rat) (a : Rat)
    (hs : List.Sorted (· ≤ ·) l) (hb : ∀ y ∈ l, y ≤ a) :
    List.Sorted (· ≤ ·) (l ++ [a]) := by
  refine List.pairwise_append.mpr ⟨hs, List.pairwise_singleton _ _, ?_⟩
  intro x hx y hy
  rcases List.mem_singleton.mp hy with rfl
  exact hb x hx

lemma rlRun_gap (rate : Nat) (hr : rate ≠ 0) :
    ∀ (evs : List RLAcquire) (t0 : Rat) (pre dq : List Rat),
      RLValid rate t0 dq evs →
      List.Sorted (· ≤ ·) (pre ++ dq) →
      (∀ r ∈ pre, r + 1 ≤ t0) →
      (∀ s ∈ dq, s ≤ t0) →
      dq.length ≤ rate →
      GapOK rate (pre ++ dq) →
      List.Sorted (· ≤ ·) ((pre ++ dq) ++ rlRun rate dq evs) ∧
      GapOK rate ((pre ++ dq) ++ rlRun rate dq evs) := by
  intro evs
  induction evs with
  | nil =>
    intro t0 pre dq _ hs _ _ _ hgap
    constructor
    · simpa [rlRun] using hs
    · simpa [rlRun] using hgap
  | cons ev evs ih =>
    intro t0 pre dq hv hs hpre hdq hlen hgap
    obtain ⟨h1, h2, h3, hrest⟩ := hv
    have hdq1sub : ∀ s ∈ rlPrune ev.now dq, s ∈ dq := by
      intro s hmem
      exact (List.dropWhile_sublist _).subset hmem
    have hdq1len : (rlPrune ev.now dq).length ≤ dq.length :=
      (List.dropWhile_sublist _).length_le
    have hdec : (pre ++ dq.takeWhile (fun s => decide ((1:Rat) ≤ ev.now - s)))
        ++ rlPrune ev.now dq = pre ++ dq := by
      rw [List.append_assoc]
      congr 1
      exact List.takeWhile_append_dropWhile (fun s => decide ((1:Rat) ≤ ev.now - s)) dq
    have hpre2 : ∀ r ∈ pre ++ dq.takeWhile (fun s => decide ((1:Rat) ≤ ev.now - s)),
        r + 1 ≤ ev.now := by
      intro r hmem
      rcases List.mem_append.mp hmem with hl | hl
      · have := hpre r hl
        linarith
      · have := List.mem_takeWhile_imp hl
        have hle : (1:Rat) ≤ ev.now - r := by simpa using this
        linarith
    have hall : ∀ y ∈ pre ++ dq, y ≤ ev.now := by
      intro y hy
      rcases List.mem_append.mp hy with hl | hl
      · have := hpre y hl
        linarith
      · have := hdq y hl
        linarith
    by_cases hbr : (rlPrune ev.now dq).length < rate
    · -- record ev.now
      have hstep : rlStep rate dq ev = (rlPrune ev.now dq ++ [ev.now], some ev.now) := by
        unfold rlStep
        rw [if_neg hr]
        simp only [hbr, if_true]
      have hrun : rlRun rate dq (ev :: evs)
          = ev.now :: rlRun rate (rlPrune ev.now dq ++ [ev.now]) evs := by
        show (match rlStep rate dq ev with
          | (dq2, some r) => r :: rlRun rate dq2 evs
          | (dq2, none) => rlRun rate dq2 evs)
          = ev.now :: rlRun rate (rlPrune ev.now dq ++ [ev.now]) evs
        rw [hstep]
      have hvB : RLValid rate ev.now (rlPrune ev.now dq ++ [ev.now]) evs := by
        have := hrest
        rw [hstep] at this
        simpa using this
      have hsB : List.Sorted (· ≤ ·)
          ((pre ++ dq.takeWhile (fun s => decide ((1:Rat) ≤ ev.now - s)))
            ++ (rlPrune ev.now dq ++ [ev.now])) := by
        rw [← List.append_assoc, hdec]
        exact sorted_append_singleton _ _ hs hall
      have hdqB : ∀ s ∈ rlPrune ev.now dq ++ [ev.now], s ≤ ev.now := by
        intro s hmem
        rcases List.mem_append.mp hmem with hl | hl
        · have := hdq s (hdq1sub s hl)
          linarith
        · rcases List.mem_singleton.mp hl with rfl
          exact le_refl _
      have hlenB : (rlPrune ev.now dq ++ [ev.now]).length ≤ rate := by
        rw [len_concat]
        omega
      have hgapB : GapOK rate
          ((pre ++ dq.takeWhile (fun s => decide ((1:Rat) ≤ ev.now - s)))
            ++ (rlPrune ev.now dq ++ [ev.now])) := by
        rw [← List.append_assoc]
        apply gapOK_append rate _ _ _ _ hbr hpre2
        rw [hdec]
        exact hgap
      obtain ⟨hS, hG⟩ := ih ev.now _ _ hvB hsB hpre2 hdqB hlenB hgapB
      have hfinal : (pre ++ dq) ++ rlRun rate dq (ev :: evs)
          = ((pre ++ dq.takeWhile (fun s => decide ((1:Rat) ≤ ev.now - s)))
              ++ (rlPrune ev.now dq ++ [ev.now]))
            ++ rlRun rate (rlPrune ev.now dq ++ [ev.now]) evs := by
        rw [hrun, ← List.append_assoc, hdec]
        simp
      rw [hfinal]
      exact ⟨hS, hG⟩
    · -- wait, then record ev.now2
      have hdq1rate : (rlPrune ev.now dq).length = rate := by omega
      have hne : rlPrune ev.now dq ≠ [] := by
        intro hc
        rw [hc] at hdq1rate
        simp at hdq1rate
        omega
      obtain ⟨s0, tl, hcons⟩ := List.exists_cons_of_ne_nil hne
      have hs0 : s0 + 1 ≤ ev.now2 := by
        apply h3 hr hbr s0
        rw [hcons]
        rfl
      have hprune2 : rlPrune ev.now2 (rlPrune ev.now dq)
          = (tl).dropWhile (fun s => decide ((1:Rat) ≤ ev.now2 - s)) := by
        rw [hcons]
        unfold rlPrune
        rw [List.dropWhile_cons_of_pos]
        simp only [decide_eq_true_eq]
        linarith
      have hdq2len : (rlPrune ev.now2 (rlPrune ev.now dq)).length ≤ rate - 1 := by
        rw [hprune2]
        have hle : ((tl).dropWhile (fun s => decide ((1:Rat) ≤ ev.now2 - s))).length ≤ tl.length :=
          (List.dropWhile_sublist _).length_le
        have htl : tl.length = rate - 1 := by
          have := hdq1rate
          rw [hcons] at this
          simp at this
          omega
        omega
      have hdq2sub : ∀ s ∈ rlPrune ev.now2 (rlPrune ev.now dq), s ∈ rlPrune ev.now dq := by
        intro s hmem
        exact (List.dropWhile_sublist _).subset hmem
      have hstep : rlStep rate dq ev
          = (rlPrune ev.now2 (rlPrune ev.now dq) ++ [ev.now2], some ev.now2) := by
        unfold rlStep
        rw [if_neg hr]
        simp only [hbr, if_false]
      have hrun : rlRun rate dq (ev :: evs)
          = ev.now2 :: rlRun rate (rlPrune ev.now2 (rlPrune ev.now dq) ++ [ev.now2]) evs := by
        show (match rlStep rate dq ev with
          | (dq2, some r) => r :: rlRun rate dq2 evs
          | (dq2, none) => rlRun rate dq2 evs)
          = ev.now2 :: rlRun rate (rlPrune ev.now2 (rlPrune ev.now dq) ++ [ev.now2]) evs
        rw [hstep]
      have hdec2 : ((pre ++ dq.takeWhile (fun s => decide ((1:Rat) ≤ ev.now - s)))
          ++ (rlPrune ev.now dq).takeWhile (fun s => decide ((1:Rat) ≤ ev.now2 - s)))
          ++ rlPrune ev.now2 (rlPrune ev.now dq) = pre ++ dq := by
        rw [List.append_assoc]
        have hinner : (rlPrune ev.now dq).takeWhile (fun s => decide ((1:Rat) ≤ ev.now2 - s))
            ++ rlPrune ev.now2 (rlPrune ev.now dq) = rlPrune ev.now dq := by
          exact List.takeWhile_append_dropWhile (fun s => decide ((1:Rat) ≤ ev.now2 - s))
            (rlPrune ev.now dq)
        rw [hinner]
        exact hdec
      have hpre3 : ∀ r ∈ (pre ++ dq.takeWhile (fun s => decide ((1:Rat) ≤ ev.now - s)))
          ++ (rlPrune ev.now dq).takeWhile (fun s => decide ((1:Rat) ≤ ev.now2 - s)),
          r + 1 ≤ ev.now2 := by
        intro r hmem
        rcases List.mem_append.mp hmem with hl | hl
        · have := hpre2 r hl
          linarith
        · have := List.mem_takeWhile_imp hl
          have hle : (1:Rat) ≤ ev.now2 - r := by simpa using this
          linarith
      have hvB : RLValid rate ev.now2
          (rlPrune ev.now2 (rlPrune ev.now dq) ++ [ev.now2]) evs := by
        have := hrest
        rw [hstep] at this
        simpa using this
      have hallB : ∀ y ∈ pre ++ dq, y ≤ ev.now2 := by
        intro y hy
        have := hall y hy
        linarith
      have hsB : List.Sorted (· ≤ ·)
          (((pre ++ dq.takeWhile (fun s => decide ((1:Rat) ≤ ev.now - s)))
            ++ (rlPrune ev.now dq).takeWhile (fun s => decide ((1:Rat) ≤ ev.now2 - s)))
            ++ (rlPrune ev.now2 (rlPrune ev.now dq) ++ [ev.now2])) := by
        rw [← List.append_assoc, hdec2]
        exact sorted_append_singleton _ _ hs hallB
      have hdqB : ∀ s ∈ rlPrune ev.now2 (rlPrune ev.now dq) ++ [ev.now2], s ≤ ev.now2 := by
        intro s hmem
        rcases List.mem_append.mp hmem with hl | hl
        · have := hdq s (hdq1sub s (hdq2sub s hl))
          linarith
        · rcases List.mem_singleton.mp hl with rfl
          exact le_refl _
      have hlenB : (rlPrune ev.now2 (rlPrune ev.now dq) ++ [ev.now2]).length ≤ rate := by
        rw [len_concat]
        omega
      have hgapB : GapOK rate
          (((pre ++ dq.takeWhile (fun s => decide ((1:Rat) ≤ ev.now - s)))
            ++ (rlPrune ev.now dq).takeWhile (fun s => decide ((1:Rat) ≤ ev.now2 - s)))
            ++ (rlPrune ev.now2 (rlPrune ev.now dq) ++ [ev.now2])) := by
        rw [← List.append_assoc]
        apply gapOK_append rate _ _ _ _ (by omega) hpre3
        rw [hdec2]
        exact hgap
      obtain ⟨hS, hG⟩ := ih ev.now2 _ _ hvB hsB hpre3 hdqB hlenB hgapB
      have hfinal : (pre ++ dq) ++ rlRun rate dq (ev :: evs)
          = (((pre ++ dq.takeWhile (fun s => decide ((1:Rat) ≤ ev.now - s)))
              ++ (rlPrune ev.now dq).takeWhile (fun s => decide ((1:Rat) ≤ ev.now2 - s)))
              ++ (rlPrune ev.now2 (rlPrune ev.now dq) ++ [ev.now2]))
            ++ rlRun rate (rlPrune ev.now2 (rlPrune ev.now dq) ++ [ev.now2]) evs := by
        rw [hrun, ← List.append_assoc, hdec2]
        simp
      rw [hfinal]
      exact ⟨hS, hG⟩

/-- C9: for an `AsyncRateLimiter` with rate `R > 0`, along any valid
serialised trace of acquire calls (the internal lock is held for the
whole call, sleep included, so concurrent callers are fully serialised;
validity captures the monotonic clock and the sleep guarantee) no rolling
1-second window `(t−1, t]` ever contains more than `R` completed
acquisitions, and with rate 0 an acquire is a no-op that records
nothing. -/
theorem rate_limiter_window_bound (rate : Nat) (hrate : 0 < rate) (t0 : Rat)
    (evs : List RLAcquire) (hv : RLValid rate t0 [] evs) (t : Rat) :
    (rlRun rate [] evs).countP (inWindow t) ≤ rate ∧
    (∀ dq ev, rlStep 0 dq ev = (dq, none)) := by
  constructor
  · have hr : rate ≠ 0 := by omega
    have hmain := rlRun_gap rate hr evs t0 [] [] hv (by simp) (by simp) (by simp)
      (by simp) (by intro k h; simp at h)
    simp only [List.nil_append] at hmain
    exact count_window_of_gap rate hr t _ hmain.1 hmain.2
  · intro dq ev
    rfl

/-- Witness trace for C9: rate 1, acquisitions entering at times 0 and
3/10; the second finds the window full and completes at time 1 after the
sleep. -/
def rlWitnessTrace : List RLAcquire := [⟨0, 0⟩, ⟨3 / 10, 1⟩]

/-- Witness for C9: the two-event trace is valid for rate 1, and no
1-second window holds more than one completed acquisition. -/
theorem rate_limiter_window_bound_witness :
    (rlRun 1 [] rlWitnessTrace).countP (inWindow 1) ≤ 1 ∧
    (∀ dq ev, rlStep 0 dq ev = (dq, none)) :=
  rate_limiter_window_bound 1 (by decide) 0 rlWitnessTrace
    (by
      show RLValid 1 0 [] rlWitnessTrace
      unfold rlWitnessTrace
      refine ⟨le_refl 0, le_refl 0, ?_, ?_, ?_, ?_, trivial⟩
      · intro _ hc
        exact absurd (by norm_num [rlPrune]) hc
      · show (0 : Rat) ≤ 3 / 10
        norm_num
      · norm_num
      · intro _ _ s0 hs0
        norm_num [rlPrune, List.dropWhile, Option.mem_def] at hs0
        rw [← hs0]
        show (0 : Rat) + 1 ≤ 1
        norm_num)
    1

end AMAC
